import Mathlib

/-!
Shallow embedding of `src/node/core/dispute/votesdb/src/votesdb.rs`, the
VotesDB dispute-vote store: the vote model, the key schema, a model of the
single-column key-value store, the `store_votes` write path and the session
pruning engine, together with theorems about the module's documented
properties.

`SessionIndex` and `ValidatorIndex` are `u32` in the source; every operation
the module performs on them (comparison, `max`, `saturating_sub(1)`, decimal
rendering) agrees with unbounded natural arithmetic for all values below
`2 ^ 32`, and `u32::saturating_sub` is exactly truncated `Nat` subtraction,
so both are modelled as `Nat`.
-/

/-- A signed full statement as carried by the `ApprovalCheck`,
`DisputePositive` and `DisputeNegative` vote variants.  The concrete type
lives outside this file; the source only observes `sfs.validator_index` and
`sfs.candidate_hash()`, so the model keeps those two observations plus an
opaque payload that lets two different statements by the same validator about
the same candidate be distinguished. -/
structure SignedFullStatement where
  validator_index : Nat
  candidate_hash : Nat
  payload : Nat
deriving DecidableEq

/-- A vote cast by another validator (source enum `Vote`).  `ValidityAttestation`
is opaque to this module and is modelled by a `Nat`. -/
inductive Vote
  | Backing (attestation : Nat) (validator_index : Nat) (candidate_hash : Nat)
  | ApprovalCheck (sfs : SignedFullStatement)
  | DisputePositive (sfs : SignedFullStatement)
  | DisputeNegative (sfs : SignedFullStatement)
deriving DecidableEq

/-- Determines if the vote is a vote that supports the validity of this block
(source `Vote::positive`). -/
def Vote.positive : Vote → Bool
  | Vote.Backing _ _ _ => true
  | Vote.ApprovalCheck _ => true
  | Vote.DisputePositive _ => true
  | Vote.DisputeNegative _ => false

/-- A vote that challenges the validity of a candidate (source `Vote::negative`). -/
def Vote.negative (v : Vote) : Bool := !v.positive

/-- Obtain the vote's validator index (source `Vote::validator`). -/
def Vote.validator : Vote → Nat
  | Vote.Backing _ validator_index _ => validator_index
  | Vote.ApprovalCheck sfs => sfs.validator_index
  | Vote.DisputePositive sfs => sfs.validator_index
  | Vote.DisputeNegative sfs => sfs.validator_index

/-- Obtain the vote's candidate hash (source `Vote::candidate_hash`). -/
def Vote.candidate_hash : Vote → Nat
  | Vote.Backing _ _ candidate_hash => candidate_hash
  | Vote.ApprovalCheck sfs => sfs.candidate_hash
  | Vote.DisputePositive sfs => sfs.candidate_hash
  | Vote.DisputeNegative sfs => sfs.candidate_hash

/-- Verdict on a candidate once one side holds a supermajority
(source enum `CandidateQuorum`). -/
inductive CandidateQuorum
  | Valid
  | Invalid
deriving DecidableEq

/-- Output of the vote store action (source enum `VoteEvent`).

The declared source variants are `Stored`, `DisputeDetected`, `DoubleVote`,
`SupermajorityReached` and `ObsoleteVoteDiscarded`.  Two remarks on fidelity:
the declared `SupermajorityReached` field has type `CandidateQuorumResult`,
a type defined nowhere in the source, and the construction site in
`store_votes` passes no field at all, so the constructor is modelled without
a payload; and `store_votes`'s replay branch constructs `VoteEvent::Success`,
a variant that is absent from the declared enum, which the model therefore
adds as an extra constructor so the write path can be expressed as written. -/
inductive VoteEvent
  | Stored
  | DisputeDetected (candidate : Nat) (votes : List Vote)
  | DoubleVote (candidate : Nat) (validator : Nat)
  | SupermajorityReached
  | ObsoleteVoteDiscarded (candidate : Nat)
  | Success
deriving DecidableEq

/-- Abnormal outcomes of the store path.  `obsoleteVote` models
`Err(Error::ObsoleteVote)`; `unimplementedPanic` models the `unimplemented!`
panic in the conflicting-vote branch of `store_votes`.  The source's remaining
`Error` variants (`Io`, `Oneshot`, `Subsystem`) wrap failures of external
collaborators and cannot arise inside this embedding. -/
inductive StoreFailure
  | obsoleteVote
  | unimplementedPanic
deriving DecidableEq

instance {ε α : Type} [DecidableEq ε] [DecidableEq α] : DecidableEq (Except ε α) := fun x y =>
  match x, y with
  | Except.error e, Except.error f =>
    if h : e = f then isTrue (congrArg Except.error h)
    else isFalse (fun hh => h (Except.error.inj hh))
  | Except.error _, Except.ok _ => isFalse (fun hh => Except.noConfusion hh)
  | Except.ok _, Except.error _ => isFalse (fun hh => Except.noConfusion hh)
  | Except.ok a, Except.ok b =>
    if h : a = b then isTrue (congrArg Except.ok h)
    else isFalse (fun hh => h (Except.ok.inj hh))

/-- The number of sessions to store the information on a particular dispute. -/
def SESSION_COUNT_BEFORE_DROP : Nat := 100

/-- Number of transactions to batch up (source constant, `1024_u16`). -/
def MAX_ITEMS_PER_DB_TRANSACTION : Nat := 1024

/-- Key of the candidate-major path `vote/s_<session>/c_<candidate>/v_<validator>`
holding the full vote payload (source `derive_key_per_hash`).  The unused first
parameter mirrors the source's unused `prefix: &str` parameter.  Session and
validator indices render in decimal as Rust's `u32` `Display` does.  The
rendering of a `CandidateHash` is external to this file; it is modelled from
the spec (an opaque, injectively rendered, fixed identifier) as a decimal
numeral, which like any such rendering contains no `/` separator. -/
def derive_key_per_hash (pfx : String) (session : Nat) (validator : Nat) (candidate_hash : Nat) : String :=
  "vote/s_" ++ Nat.repr session ++ "/c_" ++ Nat.repr candidate_hash ++ "/v_" ++ Nat.repr validator

/-- A prefix with keys per validator: the validator-major path
`vote/s_<session>/v_<validator>/c_<candidate>` (source `derive_key_per_val`). -/
def derive_key_per_val (pfx : String) (session : Nat) (validator : Nat) (candidate_hash : Nat) : String :=
  "vote/s_" ++ Nat.repr session ++ "/v_" ++ Nat.repr validator ++ "/c_" ++ Nat.repr candidate_hash

/-- Derive the prefix key for pruning: `vote/s_<session>`
(source `derive_prune_prefix`; its format string terminates right after the
session index, with no trailing separator). -/
def derive_prune_prefix (pfx : String) (session : Nat) : String :=
  "vote/s_" ++ Nat.repr session

/-- Byte-wise prefix test on key data, mirroring the prefix semantics of the
kv store's `iter_with_prefix`. -/
def listPre : List Char → List Char → Bool
  | [], _ => true
  | _ :: _, [] => false
  | a :: xs, b :: ys => a == b && listPre xs ys

/-- Whether `key` lies under the prune prefix of `session`. -/
def pfxMatch (session : Nat) (key : String) : Bool :=
  listPre ( derive_prune_prefix "" session).data key.data

/-- Track up to which point all data was pruned (source constant
`OLDEST_SESSION_SLOT_ENTRY`, the fixed watermark key). -/
def OLDEST_SESSION_SLOT_ENTRY : String := "vote/prune/waterlevel"

/-- The single data column of the store.  The source keeps vote entries and
the watermark in one kv column; the watermark lives at the fixed key
`OLDEST_SESSION_SLOT_ENTRY`, which no session prune prefix matches (theorem
`waterlevel_key_outside_session_ranges` below), so the model separates it
into its own field, and `votes` is the association list of the remaining
(key, serialized vote) entries. -/
structure DB where
  votes : List (String × Vote)
  waterlevel : Nat
deriving DecidableEq

/-- Point lookup in the data column (the `Ok(Some …)/Ok(None)` cases of
source `read_db`; the decode step is the identity here because entries are
stored in decoded form). -/
def lookupKey : List (String × Vote) → String → Option Vote
  | [], _ => none
  | e :: rest, k => if e.1 = k then some e.2 else lookupKey rest k

/-- Point-read a vote entry from the store. -/
def dbRead (db : DB) (k : String) : Option Vote := lookupKey db.votes k

/-- Apply one staged `DBTransaction::put`: replace the entry at the key if
present, append it otherwise. -/
def upsertPut : List (String × Vote) → String → Vote → List (String × Vote)
  | [], k, v => [(k, v)]
  | e :: rest, k, v => if e.1 = k then (k, v) :: rest else e :: upsertPut rest k v

/-- Commit a list of staged puts in staging order. -/
def applyPuts (l : List (String × Vote)) : List (String × Vote) → List (String × Vote)
  | [] => l
  | p :: rest => applyPuts (upsertPut l p.1 p.2) rest

/-- Commit a list of staged erases (`DBTransaction` deletions). -/
def eraseKeys (l : List (String × Vote)) (txn : List String) : List (String × Vote) :=
  l.filter (fun e => decide (¬ e.1 ∈ txn))

/-- Returns the oldest session index for which entries are not pruned yet
(source `oldest_session_waterlevel`: reads the watermark entry,
`unwrap_or_default()`, i.e. 0 when absent — absence is modelled by the field
holding its default 0). -/
def oldest_session_waterlevel (db : DB) : Nat := db.waterlevel

/-- Modelled from the spec: `store_votes` guards on `session < get_pivot()`,
but no `get_pivot` is defined anywhere in the source; per the spec the batch
is rejected when the session is strictly below the current watermark, so the
pivot is the persisted watermark. -/
def get_pivot (db : DB) : Nat := oldest_session_waterlevel db

/-- The value computed and persisted by source
`update_oldest_session_waterlevel`: `current_oldest.max(new_oldest.saturating_sub(1))`.
The write of this value to the store is performed by the pruning engine at
its call sites below. -/
def update_oldest_session_waterlevel (current_oldest : Nat) (new_oldest : Nat) : Nat :=
  max current_oldest (new_oldest - 1)

/-- Modelled from the spec: the source's `check_for_supermajority` has an
empty body (only a `debug_assert!`), so the quorum evaluator is taken from
§4.3 of the spec: a pure function of the distinct-voter count of one polarity
and the validator-set size, true exactly when the count is strictly more than
two-thirds of the set size (stated over integers as `3 * count > 2 * size`). -/
def check_for_supermajority (count : Nat) (validator_count : Nat) : Bool :=
  decide (3 * count > 2 * validator_count)

/-- Modelled from the spec: `store_votes` branches on an undefined variable
`supermajority_reached`.  Per §4.2/§4.3 it holds when, counting the new vote,
the distinct voters of the new vote's polarity for its candidate in this
session strictly exceed two-thirds of the validator-set size.  The source
point-reads only the committed store inside the batch, so the tally likewise
counts committed entries (the validator-set size, which the source's
`store_votes` does not receive, is passed explicitly). -/
def supermajority_reached (db : DB) (session : Nat) (vote : Vote) (validator_count : Nat) : Bool :=
  let sameSide := db.votes.filter (fun e =>
    pfxMatch session e.1 && decide (e.2.candidate_hash = vote.candidate_hash)
      && (e.2.positive == vote.positive))
  check_for_supermajority (((sameSide.map (fun e => e.2.validator)) ++ [vote.validator]).dedup).length validator_count

/-- Modelled from the spec: `store_votes` computes its lookup key as
`derive_key(session, vote.validator())`, but no `derive_key` is defined
anywhere in the source; per §4.2 step 1 the store path point-reads the
candidate-major key, so the key is derived with `derive_key_per_hash` from
the session and the vote's validator and candidate. -/
def derive_key (session : Nat) (vote : Vote) : String :=
  derive_key_per_hash "" session vote.validator vote.candidate_hash

/-- One vote of the `store_votes` batch: the per-vote classification of the
source's `map` body.  Returns the emitted event together with the puts staged
on the batch transaction, or the abnormal outcome (the conflicting-vote
branch hits `unimplemented!`). -/
def storeStep (db : DB) (session : Nat) (validator_count : Nat) (vote : Vote) :
    Except StoreFailure (VoteEvent × List (String × Vote)) :=
  let k := derive_key session vote
  match dbRead db k with
  | some previous_vote =>
    if previous_vote ≠ vote then Except.error StoreFailure.unimplementedPanic
    else Except.ok (VoteEvent.Success, [])
  | none =>
    if supermajority_reached db session vote validator_count
    then Except.ok (VoteEvent.SupermajorityReached, [(k, vote)])
    else Except.ok (VoteEvent.Stored, [(k, vote)])

/-- The source's `votes.into_iter().map(…).collect()` over the batch, with the
staged transaction accumulated on the side; a panic aborts the whole batch
before anything is committed. -/
def storeLoop (db : DB) (session : Nat) (validator_count : Nat) :
    List Vote → Except StoreFailure (List VoteEvent × List (String × Vote))
  | [] => Except.ok ([], [])
  | v :: rest =>
    match storeStep db session validator_count v with
    | Except.error f => Except.error f
    | Except.ok (ev, puts) =>
      match storeLoop db session validator_count rest with
      | Except.error f => Except.error f
      | Except.ok (evs, puts') => Except.ok (ev :: evs, puts ++ puts')

/-- Source `store_votes`: reject the batch outright when the session is below
the pivot, otherwise classify every vote against the committed store, stage
the new entries on one transaction, commit it, and return the events.
`validator_count` is the extra input needed by the modelled supermajority
check (see `supermajority_reached`). -/
def store_votes (db : DB) (session : Nat) (votes : List Vote) (validator_count : Nat) :
    Except StoreFailure (List VoteEvent × DB) :=
  if session < get_pivot db then Except.error StoreFailure.obsoleteVote
  else
    match storeLoop db session validator_count votes with
    | Except.error f => Except.error f
    | Except.ok (events, puts) =>
      Except.ok (events, DB.mk (applyPuts db.votes puts) db.waterlevel)

/-- The event `storeStep` emits for a vote, as a total function (the value on
the panic branch is arbitrary and never reached for an accepted batch). -/
def storeStepEvent (db : DB) (session : Nat) (validator_count : Nat) (vote : Vote) : VoteEvent :=
  match storeStep db session validator_count vote with
  | Except.ok (ev, _) => ev
  | Except.error _ => VoteEvent.Success

/-- An incoming backed candidate (source uses `backed_candidate.candidate.hash()`,
`validator_indices` and `validity_votes`; the candidate itself is external to
this file, so only its hash is modelled, and `ValidityAttestation` is opaque). -/
structure BackedCandidate where
  candidate_hash : Nat
  validator_indices : List Nat
  validity_votes : List Nat
deriving DecidableEq

/-- Extract fragments from an incoming backed candidate into multiple votes
(source `impl From<BackedCandidate> for Vec<Vote>`): zip the validator indices
with the validity votes and wrap each pair as a `Backing` vote for the
candidate's hash. -/
def votesFromBackedCandidate (backed_candidate : BackedCandidate) : List Vote :=
  (backed_candidate.validator_indices.zip backed_candidate.validity_votes).map
    (fun p => Vote.Backing p.2 p.1 backed_candidate.candidate_hash)

/-- Running state of `prune_votes_older_than_session`: the committed store,
the running `oldest_session` variable, the staged erases of the open cleanup
transaction, the item counter `n`, and the trace of committed states (one
entry per transaction commit and per watermark write, in order), which the
watermark-discipline theorems quantify over. -/
structure PruneState where
  db : DB
  oldest : Nat
  txn : List String
  n : Nat
  trace : List DB

/-- Commit the open cleanup transaction (`db.write_transaction`): apply the
staged erases, leaving the watermark untouched, and record the new committed
state. -/
def commitTx (s : PruneState) : PruneState :=
  let db' : DB := DB.mk (eraseKeys s.db.votes s.txn) s.db.waterlevel
  PruneState.mk db' s.oldest [] s.n (s.trace ++ [db'])

/-- Persist watermark value `w` (the `write_db` inside source
`update_oldest_session_waterlevel`) and assign it to the running
`oldest_session` variable, recording the new committed state. -/
def wlWrite (s : PruneState) (w : Nat) : PruneState :=
  let db' : DB := DB.mk s.db.votes w
  PruneState.mk db' w s.txn s.n (s.trace ++ [db'])

/-- The checkpoint body of the prune loop (`n > MAX_ITEMS_PER_DB_TRANSACTION`):
commit the open transaction, advance the persisted watermark via
`update_oldest_session_waterlevel(db, oldest_session, cursor_session)` (the
source writes `session_cursor`, an obvious transposition of the loop
variable's name), open a fresh transaction and reset the counter. -/
def checkpoint (cursor : Nat) (s : PruneState) : PruneState :=
  let s₁ := commitTx s
  let s₂ := wlWrite s₁ (update_oldest_session_waterlevel s₁.oldest cursor)
  PruneState.mk s₂.db s₂.oldest [] 0 s₂.trace

/-- One key of the per-session sweep: stage its erase, bump the counter, and
checkpoint once the counter exceeds the batch bound. -/
def pruneKey (cursor : Nat) (s : PruneState) (k : String) : PruneState :=
  let s' := PruneState.mk s.db s.oldest (s.txn ++ [k]) (s.n + 1) s.trace
  if s'.n > MAX_ITEMS_PER_DB_TRANSACTION then checkpoint cursor s' else s'

/-- One session of the prune loop: iterate (`iter_with_prefix`) every
committed key under the session's prune prefix and feed each to `pruneKey`. -/
def pruneSession (s : PruneState) (cursor : Nat) : PruneState :=
  let keys := (s.db.votes.filter (fun e => pfxMatch cursor e.1)).map Prod.fst
  keys.foldl ( pruneKey cursor) s

/-- Source `prune_votes_older_than_session`: no-op when the watermark is
already at or past `session`; otherwise sweep the prune prefixes of the
sessions from the watermark up to (excluding) `session` with checkpointed
transactions, then commit the remainder and persist the final watermark
`update_oldest_session_waterlevel(db, oldest_session, session)`.  Returns
the final committed state together with the trace of intermediate committed
states. -/
def prune_votes_older_than_session (db : DB) (session : Nat) : DB × List DB :=
  let oldest := oldest_session_waterlevel db
  if oldest ≥ session then (db, [])
  else
    let s₀ := PruneState.mk db oldest [] 0 []
    let s₁ := (List.range' oldest (session - oldest)).foldl pruneSession s₀
    let s₂ := commitTx s₁
    let s₃ := wlWrite s₂ (update_oldest_session_waterlevel s₂.oldest session)
    (s₃.db, s₃.trace)

/-- A committed state is stale-free when no stored key lies under the prune
prefix of any session strictly below the persisted watermark — the reader
guarantee the spec attaches to the watermark. -/
def NoStaleP (d : DB) : Prop :=
  ∀ s' < d.waterlevel, ∀ e ∈ d.votes, pfxMatch s' e.1 = false

/-- Inductive invariant of the prune loop, taken at the start of processing of
cursor session `bound` (or at loop exit with `bound` the target session):
every remaining committed key of an already-swept session is staged for
erasure; the running `oldest_session` variable equals the persisted
watermark and has not overtaken the cursor; the committed state is
stale-free; and the trace of committed states so far has non-decreasing
watermarks, ends in the current committed state, and is stale-free
throughout. -/
structure PruneInv (db₀ : DB) (bound : Nat) (s : PruneState) : Prop where
  staged : ∀ c < bound, ∀ e ∈ s.db.votes, pfxMatch c e.1 = true → e.1 ∈ s.txn
  ow : s.oldest = s.db.waterlevel
  ole : s.oldest ≤ bound
  safe : NoStaleP s.db
  chain : List.Chain' (fun a b : DB => a.waterlevel ≤ b.waterlevel) (db₀ :: s.trace)
  lastEq : (db₀ :: s.trace).getLast (List.cons_ne_nil _ _) = s.db
  traceSafe : ∀ t ∈ s.trace, NoStaleP t

/-- Invariant of the per-session key sweep of cursor `cursor`: the loop
invariant `PruneInv` together with: the committed entries only shrink below
the session-start snapshot `snap`, and every already-visited key of the sweep
(`done`) that is still committed is staged for erasure. -/
def KeyInv (db₀ : DB) (cursor : Nat) (snap : List (String × Vote)) (done : List String) (s : PruneState) : Prop :=
  PruneInv db₀ cursor s ∧ (∀ e ∈ s.db.votes, e ∈ snap) ∧
    (∀ k ∈ done, ∀ e ∈ s.db.votes, e.1 = k → k ∈ s.txn)

/-- The fixed watermark key lies under no session's prune prefix: deleting a
session's range can never erase the watermark entry, which justifies keeping
the watermark as a separate component of the store model. -/
theorem waterlevel_key_outside_session_ranges :
    ∀ s : Nat, pfxMatch s OLDEST_SESSION_SLOT_ENTRY = false :=
  fun _ => rfl

theorem lookupKey_append (l l' : List (String × Vote)) (k : String) :
    lookupKey (l ++ l') k =
      match lookupKey l k with
      | some v => some v
      | none => lookupKey l' k := by
  induction l with
  | nil => rfl
  | cons e rest ih =>
    by_cases h : e.1 = k
    · simp [lookupKey, h]
    · simp [lookupKey, h, ih]

theorem upsertPut_of_absent (l : List (String × Vote)) (k : String) (v : Vote)
    (h : lookupKey l k = none) : upsertPut l k v = l ++ [(k, v)] := by
  induction l with
  | nil => rfl
  | cons e rest ih =>
    by_cases he : e.1 = k
    · simp [lookupKey, he] at h
    · simp [lookupKey, he] at h
      simp [upsertPut, he, ih h]

/-- C1 (claim as stated is false): with the persisted watermark at 5, storing
a batch for session 3 returns the hard error `ObsoleteVote`; it does not
return a list of `ObsoleteVoteDiscarded` events (the claimed per-vote event
output for this input would be an `Except.ok`, which the call does not
produce). -/
theorem c1_obsolete_batch_hard_error :
    store_votes (DB.mk [] 5) 3 [Vote.Backing 0 0 0] 10 =
        Except.error StoreFailure.obsoleteVote ∧
      store_votes (DB.mk [] 5) 3 [Vote.Backing 0 0 0] 10 ≠
        Except.ok ([VoteEvent.ObsoleteVoteDiscarded 0], DB.mk [] 5) := by
  decide

/-- C1 (amended): for every batch whose session is strictly below the pivot
(the persisted watermark), `store_votes` rejects the entire batch with the
hard error `ObsoleteVote`: no events are produced and nothing is staged or
committed. -/
theorem c1_obsolete_batch_rejected (db : DB) (session : Nat) (votes : List Vote)
    (validator_count : Nat) (h : session < get_pivot db) :
    store_votes db session votes validator_count =
      Except.error StoreFailure.obsoleteVote := by
  simp [store_votes, h]

theorem c1_obsolete_batch_rejected_witness :
    2 < get_pivot (DB.mk [] 7) ∧
      store_votes (DB.mk [] 7) 2 [Vote.ApprovalCheck (SignedFullStatement.mk 1 4 0)] 9 =
        Except.error StoreFailure.obsoleteVote :=
  ⟨by decide, c1_obsolete_batch_rejected (DB.mk [] 7) 2
    [Vote.ApprovalCheck (SignedFullStatement.mk 1 4 0)] 9 (by decide)⟩

/-- C2 (the code, not the claim, is at fault): with `DisputePositive` already
stored for (session 5, validator 3, candidate 77), storing the conflicting
`DisputeNegative` for the identical key does not produce the documented
`DoubleVote` event — the conflicting-vote branch of `store_votes` hits
`unimplemented!` and the call aborts.  (The dead construction after the
`unimplemented!` would not even fit the declared variant: it passes
`validator` and a `votes` pair but no `candidate`, while the declared
`DoubleVote` has fields `candidate` and `validator` and no votes.) -/
theorem c2_conflicting_vote_panics :
    store_votes
        (DB.mk [( derive_key 5 (Vote.DisputePositive (SignedFullStatement.mk 3 77 0)),
          Vote.DisputePositive (SignedFullStatement.mk 3 77 0))] 0)
        5 [Vote.DisputeNegative (SignedFullStatement.mk 3 77 0)] 10 =
      Except.error StoreFailure.unimplementedPanic := by
  decide

/-- C4 (the code, not the claim, is at fault): the key ranges of distinct
sessions overlap, because the prune prefix has no trailing separator — the
prune prefix of session 1 is a byte prefix of a key of session 11, so pruning
the range of session 1 would also erase keys of session 11. -/
theorem c4_session_ranges_overlap :
    pfxMatch 1 ( derive_key_per_hash "" 11 0 0) = true ∧ (1 : Nat) ≠ 11 := by
  decide

/-- C5 (the code, not the claim, is at fault): after
`prune_votes_older_than_session(5)` on an empty store the persisted watermark
is 4, not the target 5 (the final update writes
`max(watermark, target - 1)`); and pruning to target 2 erases a stored key
of session 11 — a session at or above the target — because session 1's
unterminated prune prefix matches it. -/
theorem c5_prune_post_state_wrong :
    (( prune_votes_older_than_session (DB.mk [] 0) 5).1.waterlevel = 4 ∧
      ( prune_votes_older_than_session (DB.mk [] 0) 5).1.waterlevel ≠ 5) ∧
      ( prune_votes_older_than_session
          (DB.mk [( derive_key_per_hash "" 11 2 3, Vote.Backing 1 2 3)] 0) 2).1.votes = [] := by
  decide

/-- C9 (the code, not the claim, is at fault): accepting a fresh vote stages
exactly one write — the serialized vote at the derived (candidate-major) key.
No presence marker is written: the committed store after the batch holds the
single candidate-major key, and the validator-major key is a different string
(hence absent; the source never calls `derive_key_per_val`). -/
theorem c9_single_write_no_marker :
    store_votes (DB.mk [] 0) 0 [Vote.Backing 9 4 7] 10 =
        Except.ok ([VoteEvent.Stored],
          DB.mk [( derive_key_per_hash "" 0 4 7, Vote.Backing 9 4 7)] 0) ∧
      (DB.mk [( derive_key_per_hash "" 0 4 7, Vote.Backing 9 4 7)] 0).votes.map Prod.fst =
        [ derive_key_per_hash "" 0 4 7] ∧
      derive_key_per_val "" 0 4 7 ≠ derive_key_per_hash "" 0 4 7 := by
  decide

theorem storeLoop_events (db : DB) (session validator_count : Nat) :
    ∀ (votes : List Vote) (events : List VoteEvent) (puts : List (String × Vote)),
      storeLoop db session validator_count votes = Except.ok (events, puts) →
      events = votes.map ( storeStepEvent db session validator_count) := by
  intro votes
  induction votes with
  | nil =>
    intro events puts h
    simp only [storeLoop] at h
    cases h
    rfl
  | cons v rest ih =>
    intro events puts h
    simp only [storeLoop] at h
    cases hs : storeStep db session validator_count v with
    | error f => rw [hs] at h; cases h
    | ok p =>
      obtain ⟨ev, pts⟩ := p
      rw [hs] at h
      cases hr : storeLoop db session validator_count rest with
      | error f => rw [hr] at h; cases h
      | ok q =>
        obtain ⟨evs, pts'⟩ := q
        rw [hr] at h
        cases h
        have he : storeStepEvent db session validator_count v = ev := by
          simp [storeStepEvent, hs]
        simp [List.map, he, ih _ _ hr]

/-- C3: storing the identical vote a second time for the same
(session, validator, candidate) key is idempotent.  On a fresh key the first
call is accepted and yields `Stored` (or its escalation
`SupermajorityReached`) and commits the vote at the derived key; the second
call with the same vote is accepted, stages no write, leaves the committed
store byte-for-byte unchanged, and fills its event slot with the no-op
placeholder (`VoteEvent::Success` in the source, a variant outside the
declared event enum). -/
theorem c3_store_identical_vote_idempotent (db : DB) (session validator_count : Nat) (v : Vote)
    (hw : oldest_session_waterlevel db ≤ session)
    (hfresh : dbRead db ( derive_key session v) = none) :
    ∃ e db₁,
      store_votes db session [v] validator_count = Except.ok ([e], db₁) ∧
      (e = VoteEvent.Stored ∨ e = VoteEvent.SupermajorityReached) ∧
      dbRead db₁ ( derive_key session v) = some v ∧
      store_votes db₁ session [v] validator_count =
        Except.ok ([VoteEvent.Success], db₁) := by
  have hpiv : ¬ session < get_pivot db := Nat.not_lt.mpr hw
  set k := derive_key session v with hk
  set e0 : VoteEvent := if supermajority_reached db session v validator_count
    then VoteEvent.SupermajorityReached else VoteEvent.Stored with he0
  set db₁ : DB := DB.mk (db.votes ++ [(k, v)]) db.waterlevel with hdb₁
  have hstep : storeStep db session validator_count v = Except.ok (e0, [(k, v)]) := by
    simp only [storeStep, ← hk, hfresh, he0]
    split <;> rfl
  have hfirst : store_votes db session [v] validator_count = Except.ok ([e0], db₁) := by
    simp only [store_votes, if_neg hpiv, storeLoop, hstep]
    simp only [applyPuts, upsertPut_of_absent db.votes k v hfresh, hdb₁]
  have hread : dbRead db₁ k = some v := by
    have hfresh' : lookupKey db.votes k = none := hfresh
    simp [hdb₁, dbRead, lookupKey_append, hfresh', lookupKey]
  have hpiv₁ : ¬ session < get_pivot db₁ := by
    simp only [hdb₁, get_pivot, oldest_session_waterlevel]
    exact Nat.not_lt.mpr hw
  have hstep₁ : storeStep db₁ session validator_count v =
      Except.ok (VoteEvent.Success, []) := by
    simp [storeStep, ← hk, hread]
  have hsecond : store_votes db₁ session [v] validator_count =
      Except.ok ([VoteEvent.Success], db₁) := by
    simp only [store_votes, if_neg hpiv₁, storeLoop, hstep₁]
    simp only [applyPuts, hdb₁]
  refine ⟨e0, db₁, hfirst, ?_, hread, hsecond⟩
  simp only [he0]
  split
  · exact Or.inr rfl
  · exact Or.inl rfl

theorem c3_store_identical_vote_idempotent_witness :
    oldest_session_waterlevel (DB.mk [] 0) ≤ 2 ∧
      dbRead (DB.mk [] 0) ( derive_key 2 (Vote.Backing 5 1 8)) = none ∧
      ∃ e db₁,
        store_votes (DB.mk [] 0) 2 [Vote.Backing 5 1 8] 10 = Except.ok ([e], db₁) ∧
        (e = VoteEvent.Stored ∨ e = VoteEvent.SupermajorityReached) ∧
        dbRead db₁ ( derive_key 2 (Vote.Backing 5 1 8)) = some (Vote.Backing 5 1 8) ∧
        store_votes db₁ 2 [Vote.Backing 5 1 8] 10 =
          Except.ok ([VoteEvent.Success], db₁) :=
  ⟨by decide, by decide,
    c3_store_identical_vote_idempotent (DB.mk [] 0) 2 10 (Vote.Backing 5 1 8)
      (by decide) (by decide)⟩

/-- C7: the quorum evaluator is a pure function of the distinct-voter count
and the validator-set size, true exactly when the count strictly exceeds
two-thirds of the set size; with a validator set of 10 it fires exactly from
the 7th distinct voter on.  The last two conjuncts replay the spec's
scenario end to end through `store_votes`: with 6 committed distinct positive
votes for the candidate, the 7th distinct positive vote yields
`SupermajorityReached`, while with 5 committed the 6th yields only `Stored`. -/
theorem c7_supermajority_threshold :
    (∀ count validator_count : Nat,
        check_for_supermajority count validator_count = true ↔
          ((2 : ℚ) / 3) * validator_count < count) ∧
      (List.range 11).all
        (fun k => check_for_supermajority k 10 == decide (7 ≤ k)) = true ∧
      store_votes
          (DB.mk ((List.range 6).map (fun i =>
            ( derive_key 0 (Vote.Backing 0 (i + 1) 0), Vote.Backing 0 (i + 1) 0))) 0)
          0 [Vote.Backing 0 7 0] 10 =
        Except.ok ([VoteEvent.SupermajorityReached],
          DB.mk ((List.range 6).map (fun i =>
            ( derive_key 0 (Vote.Backing 0 (i + 1) 0), Vote.Backing 0 (i + 1) 0)) ++
            [( derive_key 0 (Vote.Backing 0 7 0), Vote.Backing 0 7 0)]) 0) ∧
      store_votes
          (DB.mk ((List.range 5).map (fun i =>
            ( derive_key 0 (Vote.Backing 0 (i + 1) 0), Vote.Backing 0 (i + 1) 0))) 0)
          0 [Vote.Backing 0 6 0] 10 =
        Except.ok ([VoteEvent.Stored],
          DB.mk ((List.range 5).map (fun i =>
            ( derive_key 0 (Vote.Backing 0 (i + 1) 0), Vote.Backing 0 (i + 1) 0)) ++
            [( derive_key 0 (Vote.Backing 0 6 0), Vote.Backing 0 6 0)]) 0) := by
  refine ⟨?_, by decide, by decide, by decide⟩
  intro count n
  simp only [check_for_supermajority, decide_eq_true_eq]
  rw [div_mul_eq_mul_div, div_lt_iff₀ (by norm_num : (0:ℚ) < 3)]
  constructor
  · intro h
    have hq : ((2 * n : Nat) : ℚ) < ((3 * count : Nat) : ℚ) := by exact_mod_cast h
    push_cast at hq
    linarith
  · intro h
    have hq : ((2 * n : Nat) : ℚ) < ((3 * count : Nat) : ℚ) := by push_cast; linarith
    exact_mod_cast hq

/-- C8: an accepted batch returns exactly one event per input vote, in input
order: the event list is the input list mapped through the per-vote
classifier, so it has the input's length and its `i`-th element (including
the idempotent no-op placeholder, which keeps its slot) is the event of the
`i`-th input vote. -/
theorem c8_one_event_per_vote_in_order (db : DB) (session : Nat) (votes : List Vote)
    (validator_count : Nat) (events : List VoteEvent) (db' : DB)
    (h : store_votes db session votes validator_count = Except.ok (events, db')) :
    events = votes.map ( storeStepEvent db session validator_count) ∧
      events.length = votes.length := by
  have hev : events = votes.map ( storeStepEvent db session validator_count) := by
    unfold store_votes at h
    split at h
    · cases h
    · cases hl : storeLoop db session validator_count votes with
      | error f => rw [hl] at h; cases h
      | ok q =>
        obtain ⟨evs, puts⟩ := q
        rw [hl] at h
        cases h
        exact storeLoop_events db session validator_count votes _ _ hl
  exact ⟨hev, by rw [hev, List.length_map]⟩

theorem c8_one_event_per_vote_in_order_witness :
    store_votes (DB.mk [] 0) 0
        [Vote.Backing 0 1 4, Vote.Backing 0 1 4, Vote.Backing 7 2 4] 10 =
      Except.ok ([VoteEvent.Stored, VoteEvent.Stored, VoteEvent.Stored],
        DB.mk [( derive_key 0 (Vote.Backing 0 1 4), Vote.Backing 0 1 4),
          ( derive_key 0 (Vote.Backing 7 2 4), Vote.Backing 7 2 4)] 0) ∧
      [VoteEvent.Stored, VoteEvent.Stored, VoteEvent.Stored] =
        [Vote.Backing 0 1 4, Vote.Backing 0 1 4, Vote.Backing 7 2 4].map
          ( storeStepEvent (DB.mk [] 0) 0 10) ∧
      ([VoteEvent.Stored, VoteEvent.Stored, VoteEvent.Stored] : List VoteEvent).length =
        ([Vote.Backing 0 1 4, Vote.Backing 0 1 4, Vote.Backing 7 2 4] : List Vote).length :=
  ⟨by decide,
    c8_one_event_per_vote_in_order (DB.mk [] 0) 0
      [Vote.Backing 0 1 4, Vote.Backing 0 1 4, Vote.Backing 7 2 4] 10
      [VoteEvent.Stored, VoteEvent.Stored, VoteEvent.Stored]
      (DB.mk [( derive_key 0 (Vote.Backing 0 1 4), Vote.Backing 0 1 4),
        ( derive_key 0 (Vote.Backing 7 2 4), Vote.Backing 7 2 4)] 0) (by decide)⟩

/-- C10: converting a backed candidate into votes zips the validator indices
with the validity votes: the result has length `min` of the two lists'
lengths (excess elements of the longer list are dropped), its `i`-th element
is the `Backing` vote pairing the `i`-th validator index with the `i`-th
validity vote, and every produced vote carries the candidate's hash. -/
theorem c10_backed_candidate_to_votes (bc : BackedCandidate) (i : Nat) :
    ( votesFromBackedCandidate bc).length =
        min bc.validator_indices.length bc.validity_votes.length ∧
      ( votesFromBackedCandidate bc)[i]? =
        (bc.validator_indices[i]?.bind fun vi =>
          bc.validity_votes[i]?.map fun att => Vote.Backing att vi bc.candidate_hash) ∧
      ( votesFromBackedCandidate bc).all
        (fun v => v.candidate_hash == bc.candidate_hash) = true := by
  refine ⟨?_, ?_, ?_⟩
  · simp [votesFromBackedCandidate]
  · cases hv : bc.validator_indices[i]? with
    | none =>
      have h1 : bc.validator_indices.length ≤ i := List.getElem?_eq_none_iff.mp hv
      have hz : (bc.validator_indices.zip bc.validity_votes)[i]? = none := by
        apply List.getElem?_eq_none
        simp only [List.length_zip]
        omega
      simp [votesFromBackedCandidate, hz]
    | some vi =>
      cases ha : bc.validity_votes[i]? with
      | none =>
        have h1 : bc.validity_votes.length ≤ i := List.getElem?_eq_none_iff.mp ha
        have hz : (bc.validator_indices.zip bc.validity_votes)[i]? = none := by
          apply List.getElem?_eq_none
          simp only [List.length_zip]
          omega
        simp [votesFromBackedCandidate, hz, hv]
      | some att =>
        have hz : (bc.validator_indices.zip bc.validity_votes)[i]? = some (vi, att) :=
          List.getElem?_zip_eq_some.mpr ⟨hv, ha⟩
        simp [votesFromBackedCandidate, hz, hv, ha]
  · simp only [votesFromBackedCandidate, List.all_map, List.all_eq_true]
    intro p hp
    obtain ⟨q, hq, rfl⟩ := List.mem_map.mp hp
    simp [Vote.candidate_hash]

theorem chainSnoc (a : DB) (l : List DB) (x : DB)
    (h : List.Chain' (fun p q : DB => p.waterlevel ≤ q.waterlevel) (a :: l))
    (hR : ((a :: l).getLast (List.cons_ne_nil a l)).waterlevel ≤ x.waterlevel) :
    List.Chain' (fun p q : DB => p.waterlevel ≤ q.waterlevel) ((a :: l) ++ [x]) := by
  rw [List.chain'_append]
  refine ⟨h, List.chain'_singleton x, ?_⟩
  intro p hp q hq
  rw [List.getLast?_eq_getLast (a :: l) (List.cons_ne_nil a l)] at hp
  simp only [Option.mem_def, Option.some.injEq] at hp
  simp only [List.head?_cons, Option.mem_def, Option.some.injEq] at hq
  rw [← hp, ← hq] at *
  exact hR

theorem lastSnoc (a : DB) (l : List DB) (x : DB) :
    ((a :: l) ++ [x]).getLast (by simp) = x := by
  simp [List.getLast_append]

theorem eraseKeys_mem (l : List (String × Vote)) (txn : List String) (e : String × Vote)
    (h : e ∈ eraseKeys l txn) : e ∈ l ∧ ¬ e.1 ∈ txn := by
  have := List.mem_filter.mp h
  refine ⟨this.1, ?_⟩
  have h2 := this.2
  simpa using h2

theorem commitTx_inv (db₀ : DB) (bound : Nat) (s : PruneState) (h : PruneInv db₀ bound s) :
    PruneInv db₀ bound (commitTx s) ∧
      (∀ c < bound, ∀ e ∈ (commitTx s).db.votes, pfxMatch c e.1 = false) ∧
      (∀ e ∈ (commitTx s).db.votes, e ∈ s.db.votes ∧ ¬ e.1 ∈ s.txn) ∧
      (commitTx s).txn = [] ∧ (commitTx s).oldest = s.oldest := by
  have hmem : ∀ e ∈ (commitTx s).db.votes, e ∈ s.db.votes ∧ ¬ e.1 ∈ s.txn := by
    intro e he
    exact eraseKeys_mem s.db.votes s.txn e he
  have hcl : ∀ c < bound, ∀ e ∈ (commitTx s).db.votes, pfxMatch c e.1 = false := by
    intro c hc e he
    obtain ⟨hin, hnot⟩ := hmem e he
    by_cases hm : pfxMatch c e.1 = true
    · exact absurd (h.staged c hc e hin hm) hnot
    · simpa using hm
  refine ⟨?_, hcl, hmem, rfl, rfl⟩
  refine ⟨?_, h.ow, h.ole, ?_, ?_, ?_, ?_⟩
  · intro c hc e he hm
    rw [hcl c hc e he] at hm
    cases hm
  · intro c hc e he
    exact h.safe c hc e (hmem e he).1
  · exact chainSnoc db₀ s.trace (commitTx s).db h.chain (by rw [h.lastEq]; exact le_rfl)
  · exact lastSnoc db₀ s.trace (commitTx s).db
  · intro t ht
    rcases List.mem_append.mp ht with hold | hnew
    · exact h.traceSafe t hold
    · rw [List.mem_singleton.mp hnew]
      intro c hc e he
      have hcb : c < bound := by
        have h1 : c < s.db.waterlevel := hc
        have h2 := h.ow
        have h3 := h.ole
        omega
      exact hcl c hcb e he

theorem checkpoint_inv (db₀ : DB) (c : Nat) (s : PruneState) (h : PruneInv db₀ c s) :
    PruneInv db₀ c (checkpoint c s) ∧
      (∀ e ∈ (checkpoint c s).db.votes, e ∈ s.db.votes ∧ ¬ e.1 ∈ s.txn) ∧
      (checkpoint c s).txn = [] := by
  obtain ⟨h₁, hcl, hmem, htxn, hold⟩ := commitTx_inv db₀ c s h
  set s₁ := commitTx s with hs₁
  set w := update_oldest_session_waterlevel s₁.oldest c with hw
  have hwle : w ≤ c := by
    have h1 := h₁.ole
    simp only [hw, update_oldest_session_waterlevel]
    omega
  have holdw : s₁.oldest ≤ w := by
    simp only [hw, update_oldest_session_waterlevel]
    exact le_max_left _ _
  have hsafe₂ : ∀ c' < w, ∀ e ∈ s₁.db.votes, pfxMatch c' e.1 = false := by
    intro c' hc' e he
    exact hcl c' (lt_of_lt_of_le hc' hwle) e he
  have hck : checkpoint c s = PruneState.mk (DB.mk s₁.db.votes w) w [] 0 (s₁.trace ++ [DB.mk s₁.db.votes w]) := by
    simp only [checkpoint, wlWrite, ← hs₁, ← hw]
  rw [hck]
  refine ⟨⟨?_, rfl, hwle, ?_, ?_, ?_, ?_⟩, ?_, rfl⟩
  · intro c' hc' e he hm
    rw [hcl c' hc' e he] at hm
    cases hm
  · intro c' hc' e he
    exact hsafe₂ c' hc' e he
  · refine chainSnoc db₀ s₁.trace (DB.mk s₁.db.votes w) h₁.chain ?_
    rw [h₁.lastEq]
    have := h₁.ow
    simp only [DB.mk.injEq]
    omega
  · exact lastSnoc db₀ s₁.trace (DB.mk s₁.db.votes w)
  · intro t ht
    rcases List.mem_append.mp ht with holdt | hnewt
    · exact h₁.traceSafe t holdt
    · rw [List.mem_singleton.mp hnewt]
      intro c' hc' e he
      exact hsafe₂ c' hc' e he
  · intro e he
    exact hmem e he

theorem stage_inv (db₀ : DB) (c : Nat) (s : PruneState) (k : String)
    (h : PruneInv db₀ c s) :
    PruneInv db₀ c (PruneState.mk s.db s.oldest (s.txn ++ [k]) (s.n + 1) s.trace) := by
  refine ⟨?_, h.ow, h.ole, h.safe, h.chain, h.lastEq, h.traceSafe⟩
  intro c' hc' e he hm
  exact List.mem_append_left _ (h.staged c' hc' e he hm)

theorem pruneKey_inv (db₀ : DB) (c : Nat) (snap : List (String × Vote))
    (done : List String) (s : PruneState) (k : String)
    (h : KeyInv db₀ c snap done s) :
    KeyInv db₀ c snap (done ++ [k]) ( pruneKey c s k) := by
  obtain ⟨hinv, hsub, hdone⟩ := h
  set s' := PruneState.mk s.db s.oldest (s.txn ++ [k]) (s.n + 1) s.trace with hs'
  have hinv' : PruneInv db₀ c s' := stage_inv db₀ c s k hinv
  have hsub' : ∀ e ∈ s'.db.votes, e ∈ snap := hsub
  have hdone' : ∀ k' ∈ done ++ [k], ∀ e ∈ s'.db.votes, e.1 = k' → k' ∈ s'.txn := by
    intro k' hk' e he hek
    rcases List.mem_append.mp hk' with hk'd | hk'n
    · exact List.mem_append_left _ (hdone k' hk'd e he hek)
    · rw [List.mem_singleton.mp hk'n]
      exact List.mem_append_right _ (List.mem_singleton.mpr rfl)
  show KeyInv db₀ c snap (done ++ [k]) (if s'.n > MAX_ITEMS_PER_DB_TRANSACTION then checkpoint c s' else s')
  split
  · obtain ⟨hck, hckmem, hcktxn⟩ := checkpoint_inv db₀ c s' hinv'
    refine ⟨hck, ?_, ?_⟩
    · intro e he
      exact hsub' e (hckmem e he).1
    · intro k' hk' e he hek
      obtain ⟨hin, hnot⟩ := hckmem e he
      exact absurd (hek ▸ hdone' k' hk' e hin hek) hnot
  · exact ⟨hinv', hsub', hdone'⟩

theorem keyfold_inv (db₀ : DB) (c : Nat) (snap : List (String × Vote)) :
    ∀ (keys done : List String) (s : PruneState),
      KeyInv db₀ c snap done s →
      KeyInv db₀ c snap (done ++ keys) (keys.foldl ( pruneKey c) s) := by
  intro keys
  induction keys with
  | nil =>
    intro done s h
    simpa using h
  | cons k ks ih =>
    intro done s h
    have h1 := pruneKey_inv db₀ c snap done s k h
    have h2 := ih (done ++ [k]) ( pruneKey c s k) h1
    simpa [List.append_assoc] using h2

theorem pruneSession_inv (db₀ : DB) (c : Nat) (s : PruneState) (h : PruneInv db₀ c s) :
    PruneInv db₀ (c + 1) ( pruneSession s c) := by
  have h0 : KeyInv db₀ c s.db.votes [] s := by
    refine ⟨h, fun e he => he, ?_⟩
    intro k' hk'
    cases hk'
  have h1 := keyfold_inv db₀ c s.db.votes
    ((s.db.votes.filter (fun e => pfxMatch c e.1)).map Prod.fst) [] s h0
  rw [List.nil_append] at h1
  obtain ⟨hinv, hsub, hdone⟩ := h1
  show PruneInv db₀ (c + 1)
    (((s.db.votes.filter (fun e => pfxMatch c e.1)).map Prod.fst).foldl ( pruneKey c) s)
  set s₁ := ((s.db.votes.filter (fun e => pfxMatch c e.1)).map Prod.fst).foldl ( pruneKey c) s with hs₁
  refine ⟨?_, hinv.ow, Nat.le_succ_of_le hinv.ole, hinv.safe, hinv.chain, hinv.lastEq, hinv.traceSafe⟩
  intro c' hc' e he hm
  rcases Nat.lt_succ_iff_lt_or_eq.mp hc' with hlt | heq
  · exact hinv.staged c' hlt e he hm
  · subst heq
    have hesnap : e ∈ s.db.votes := hsub e he
    have hkeys : e.1 ∈ (s.db.votes.filter (fun e => pfxMatch c' e.1)).map Prod.fst :=
      List.mem_map.mpr ⟨e, List.mem_filter.mpr ⟨hesnap, hm⟩, rfl⟩
    exact hdone e.1 hkeys e he rfl

theorem sessionsFold_inv (db₀ : DB) :
    ∀ (len b : Nat) (s : PruneState), PruneInv db₀ b s →
      PruneInv db₀ (b + len) ((List.range' b len).foldl pruneSession s) := by
  intro len
  induction len with
  | zero =>
    intro b s h
    simpa using h
  | succ n ih =>
    intro b s h
    have h1 : PruneInv db₀ (b + 1) ( pruneSession s b) := pruneSession_inv db₀ b s h
    have h2 := ih (b + 1) ( pruneSession s b) h1
    have hr : List.range' b (n + 1) = b :: List.range' (b + 1) n := List.range'_succ b n 1
    rw [hr]
    simp only [List.foldl_cons]
    have : b + 1 + n = b + (n + 1) := by omega
    rwa [this] at h2

theorem wlWrite_final (db₀ : DB) (bound : Nat) (s : PruneState) (w : Nat)
    (h : PruneInv db₀ bound s)
    (hcl : ∀ c < bound, ∀ e ∈ s.db.votes, pfxMatch c e.1 = false)
    (hw : s.oldest ≤ w) (hwb : w ≤ bound) :
    List.Chain' (fun p q : DB => p.waterlevel ≤ q.waterlevel) (db₀ :: (wlWrite s w).trace) ∧
      ∀ t ∈ (wlWrite s w).trace, NoStaleP t := by
  constructor
  · refine chainSnoc db₀ s.trace (DB.mk s.db.votes w) h.chain ?_
    rw [h.lastEq]
    have := h.ow
    show s.db.waterlevel ≤ w
    omega
  · intro t ht
    rcases List.mem_append.mp ht with holdt | hnewt
    · exact h.traceSafe t holdt
    · rw [List.mem_singleton.mp hnewt]
      intro c' hc' e he
      exact hcl c' (lt_of_lt_of_le hc' hwb) e he

/-- C6: the watermark discipline of the pruning engine.  Starting from any
stale-free store, along the whole sequence of committed states a prune call
produces (one per transaction commit and per watermark write), the persisted
watermark never decreases, and every committed state is stale-free: whenever
the watermark is written, every key under the prune prefix of every session
strictly below the written value has already been erased by an already
committed transaction — the watermark never advances past deletions that are
not yet committed. -/
theorem c6_watermark_discipline (db : DB) (session : Nat) (h : NoStaleP db) :
    List.Chain' (fun p q : DB => p.waterlevel ≤ q.waterlevel)
      (db :: ( prune_votes_older_than_session db session).2) ∧
      ∀ t ∈ ( prune_votes_older_than_session db session).2, NoStaleP t := by
  by_cases hge : oldest_session_waterlevel db ≥ session
  · have hpr : prune_votes_older_than_session db session = (db, []) := by
      simp [prune_votes_older_than_session, hge]
    rw [hpr]
    exact ⟨List.chain'_singleton db, by intro t ht; cases ht⟩
  · have hlt : db.waterlevel < session := Nat.not_le.mp hge
    have h₀ : PruneInv db db.waterlevel (PruneState.mk db db.waterlevel [] 0 []) := by
      refine ⟨?_, rfl, le_rfl, h, List.chain'_singleton db, rfl, ?_⟩
      · intro c hc e he hm
        rw [h c hc e he] at hm
        cases hm
      · intro t ht
        cases ht
    have h₁ := sessionsFold_inv db (session - db.waterlevel) db.waterlevel
      (PruneState.mk db db.waterlevel [] 0 []) h₀
    rw [Nat.add_sub_cancel' (le_of_lt hlt)] at h₁
    set s₁ := (List.range' db.waterlevel (session - db.waterlevel)).foldl pruneSession
      (PruneState.mk db db.waterlevel [] 0 []) with hs₁
    obtain ⟨h₂, hcl, hmem, htxn, holdeq⟩ := commitTx_inv db session s₁ h₁
    have hfin := wlWrite_final db session (commitTx s₁)
      (update_oldest_session_waterlevel (commitTx s₁).oldest session) h₂ hcl
      (le_max_left _ _) ?hwb
    case hwb =>
      have h3 := h₂.ole
      simp only [update_oldest_session_waterlevel]
      omega
    have hpr : prune_votes_older_than_session db session =
        ((wlWrite (commitTx s₁)
            (update_oldest_session_waterlevel (commitTx s₁).oldest session)).db,
          (wlWrite (commitTx s₁)
            (update_oldest_session_waterlevel (commitTx s₁).oldest session)).trace) := by
      have hge' : ¬ db.waterlevel ≥ session := hge
      simp only [prune_votes_older_than_session, oldest_session_waterlevel]
      rw [if_neg hge', ← hs₁]
    rw [hpr]
    exact hfin

theorem c6_watermark_discipline_witness :
    NoStaleP (DB.mk [( derive_key_per_hash "" 1 0 0, Vote.Backing 0 0 0)] 1) ∧
      (List.Chain' (fun p q : DB => p.waterlevel ≤ q.waterlevel)
          ((DB.mk [( derive_key_per_hash "" 1 0 0, Vote.Backing 0 0 0)] 1) ::
            ( prune_votes_older_than_session
              (DB.mk [( derive_key_per_hash "" 1 0 0, Vote.Backing 0 0 0)] 1) 3).2) ∧
        ∀ t ∈ ( prune_votes_older_than_session
            (DB.mk [( derive_key_per_hash "" 1 0 0, Vote.Backing 0 0 0)] 1) 3).2,
          NoStaleP t) :=
  ⟨by unfold NoStaleP; decide,
    c6_watermark_discipline (DB.mk [( derive_key_per_hash "" 1 0 0, Vote.Backing 0 0 0)] 1) 3
      (by unfold NoStaleP; decide)⟩
